import Mathlib

/-!
# Verification of the Media Press variant-generation pipeline

A shallow embedding of `src/press.py` (the Media Press desktop batch
converter).  Pure computations of the pipeline — size-map construction,
filename generation, format classification, the produced-variant plans of the
image / video / audio producers, the scheduler's reap loop and the two-level
logger — are translated into executable Lean definitions, and the behavioural
claims of the specification are settled against them.

Modelling conventions:
* Python strings are Lean `String`s; where Python iterates over characters we
  work on `String.data` (a `List Char`).  `str.isdigit` is modelled as the
  ASCII digit test (the inputs of interest are ASCII).
* Python `dict`s are insertion-ordered association lists; `dict.update` and
  dict-comprehension key collision are modelled by `upsert` below.
* Subprocess invocations are modelled by an oracle `ρ : cmd → Bool` giving the
  success of each invocation; `run_command`'s raise-on-failure is modelled by
  explicit early exit, and the producers' `try/except` by total functions that
  record an error log line instead of propagating.
* The float expression `int(h * (w*d / sw))` of the source is modelled in
  exact rational arithmetic: truncation of a non-negative value is `Nat.floor`,
  i.e. Nat division `(h * (w*d)) / sw`.
-/

set_option autoImplicit false

namespace MediaPress


/-! ## User settings (the `user_settings` dict built in `upload_files`) -/

/-- The settings bundle constructed per upload request in `upload_files`
(`src/press.py:381-388`), with the same defaults that `settings.get(...)`
supplies at the use sites. -/
structure Settings where
  image_format : String := "webp"
  video_format : String := "mp4"
  compression_mode : String := "standard"
  custom_sizes : String := ""
  sizes_to_process : List String := []
  include_retina : Bool := false
  deriving Repr, DecidableEq

/-! ## Python dict as insertion-ordered association list -/

/-- Insert-or-replace for an insertion-ordered association list: the semantics
of assigning `m[k] = v` on a Python dict (replace in place if the key exists,
else append). -/
def upsert (m : List (String × Nat)) (k : String) (v : Nat) : List (String × Nat) :=
  if m.any (fun p => p.1 = k) then
    m.map (fun p => if p.1 = k then (k, v) else p)
  else
    m ++ [(k, v)]

/-- Semantics of `old.update(new)` on Python dicts (`dict.update`): every pair of `new` is
upserted into `old`, in order. -/
def dictUpdate (old new : List (String × Nat)) : List (String × Nat) :=
  new.foldl (fun acc p => upsert acc p.1 p.2) old

/-! ## Custom-size parsing (`get_custom_sizes`, `src/press.py:330-334`) -/

/-- Python `s.split(',')` on the character list: split at every comma, keeping
empty pieces (`"".split(',') == [""]`). -/
def splitComma : List Char → List Char → List (List Char)
  | [], acc => [acc.reverse]
  | c :: cs, acc =>
      if c = ',' then acc.reverse :: splitComma cs [] else splitComma cs (c :: acc)

/-- Python `s.strip()`: drop whitespace from both ends. -/
def pyStrip (cs : List Char) : List Char :=
  ((cs.dropWhile Char.isWhitespace).reverse.dropWhile Char.isWhitespace).reverse

/-- Python `s.isdigit()` restricted to ASCII: non-empty and all digits. -/
def pyIsDigit (cs : List Char) : Bool :=
  !cs.isEmpty && cs.all Char.isDigit

/-- Python `int(s)` for an all-digit string. -/
def pyInt (cs : List Char) : Nat :=
  cs.foldl (fun n c => 10 * n + (c.toNat - 48)) 0

/-- The stripped comma-separated tokens of a custom-size field. -/
def customTokens (s : String) : List (List Char) :=
  (splitComma s.data []).map pyStrip

/-- The synthetic dict key `f"custom_{t}px"` for a token `t`. -/
def customKey (t : List Char) : String :=
  "custom_" ++ String.mk t ++ "px"

/-- Model of `get_custom_sizes` (`src/press.py:330-334`): for a truthy input string,
build a dict from each comma token that passes `isdigit` after stripping,
keyed `custom_{token}px`, valued `int(token)`; non-digit tokens contribute
nothing.  A falsy (empty) input yields the empty dict. -/
def get_custom_sizes (custom_sizes_str : String) : List (String × Nat) :=
  if custom_sizes_str ≠ "" then
    (customTokens custom_sizes_str).foldl
      (fun acc t => if pyIsDigit t then upsert acc (customKey t) (pyInt t) else acc) []
  else []

/-! ## Format classification (`has_video_stream`, `start_processing_job`) -/

/-- The list `SUPPORTED_IMAGE_FORMATS` (`src/press.py:46`). -/
def SUPPORTED_IMAGE_FORMATS : List String :=
  [".webp", ".jpg", ".jpeg", ".png", ".tiff", ".heic"]

/-- The list `SUPPORTED_AV_FORMATS` (`src/press.py:47`). -/
def SUPPORTED_AV_FORMATS : List String :=
  [".mp4", ".mov", ".webm", ".mkv", ".avi", ".m4v", ".m4a", ".mp3", ".aac", ".wav", ".flac"]

/-- Result of one ffprobe run: `.ok out` is the probe's stdout, `.error ()`
is any raise out of `run_command` (tool missing, non-zero exit). -/
abbrev ProbeResult := Except Unit String

/-- Python's substring test `p in l`, on character lists. -/
def strContains (p : List Char) : List Char → Bool
  | [] => p.isEmpty
  | c :: rest => p.isPrefixOf (c :: rest) || strContains p rest

/-- Model of `has_video_stream` (`src/press.py:172-175`): `"video" in output` on the
probe's stdout; any exception from the probe yields `false`. -/
def has_video_stream (probe : ProbeResult) : Bool :=
  match probe with
  | .ok output => strContains "video".data output.data
  | .error _ => false

/-- The route chosen by `start_processing_job` for a file. -/
inductive Kind where
  | image
  | video
  | audioOnly
  | unsupported
  deriving Repr, DecidableEq

/-- The dispatch of `start_processing_job` (`src/press.py:188-199`) on the
lower-cased extension: image extensions go straight to the image producer;
audio/video extensions are probed and go to the video producer iff a video
stream is reported; anything else is skipped. -/
def classify (ext : String) (probe : ProbeResult) : Kind :=
  if ext ∈ SUPPORTED_IMAGE_FORMATS then .image
  else if ext ∈ SUPPORTED_AV_FORMATS then
    if has_video_stream probe then .video else .audioOnly
  else .unsupported

/-! ## Logging (`log_message`, `status`) -/

/-- The two log sinks: everything printed to stdout, and the process-wide
`processing_log` list polled by `/status`. -/
structure LogState where
  printed : List String := []
  plog : List String := []
  deriving Repr, DecidableEq

/-- Model of `log_message` (`src/press.py:143-145`): `'info'` prints and appends to
`processing_log`; `'debug'` only prints; any other level does nothing. -/
def log_message (message : String) (level : String) (st : LogState) : LogState :=
  if level = "info" then
    { printed := st.printed ++ [message], plog := st.plog ++ [message] }
  else if level = "debug" then
    { st with printed := st.printed ++ [message] }
  else st

/-- The `/status` endpoint (`src/press.py:417-418`): a snapshot of
`processing_log`. -/
def statusSnapshot (st : LogState) : List String :=
  st.plog

/-! ## Scheduler polling (`processing_status`, `src/press.py:408-415`) -/

/-- Completion state of one future in `active_futures`. -/
inductive JobState where
  | running
  | done
  | failed (msg : String)
  deriving Repr, DecidableEq

/-- The error line `processing_status` logs for a job whose `.result()`
raised. -/
def jobErrorLine (jobId msg : String) : String :=
  "🚨 Task " ++ jobId ++ " ended with an error: " ++ msg

/-- Model of `processing_status` (`src/press.py:408-415`): collect the finished
futures, log the captured exception of each failed one, delete every finished
handle, and answer with the number of handles still held.  Returns
(returned count, remaining futures dict, log lines appended). -/
def processing_status (jobs : List (String × JobState)) :
    Nat × List (String × JobState) × List String :=
  let completed := jobs.filter (fun j => j.2 ≠ .running)
  let logs := completed.foldl
    (fun acc j => match j.2 with
      | .failed m => acc ++ [jobErrorLine j.1 m]
      | _ => acc) []
  let remaining := jobs.filter (fun j => j.2 = .running)
  (remaining.length, remaining, logs)

/-! ## Image variant naming (`process_image`, `src/press.py:239,245,258,262`) -/

/-- The f-string `f"{base_name}_{size_label}@{density}x[_compressed].{target_format}"`
used for resized image variants. -/
def image_variant_name (base label : String) (density : Nat) (fmt : String)
    (compressed : Bool) : String :=
  base ++ "_" ++ label ++ "@" ++ toString density ++ "x" ++
    (if compressed then "_compressed" else "") ++ "." ++ fmt

/-- The f-string `f"{base_name}_full_size[_compressed].{target_format}"` used
for full-size image variants. -/
def full_size_name (base fmt : String) (compressed : Bool) : String :=
  base ++ "_full_size" ++ (if compressed then "_compressed" else "") ++ "." ++ fmt

/-- One variant kind of an image asset within a single job (fixed base name
and target format): a resized render for a (label, density) with or without
the compressed infix, or a full-size render with or without it. -/
inductive ImgVariant where
  | sized (label : String) (density : Nat) (compressed : Bool)
  | fullSize (compressed : Bool)
  deriving Repr, DecidableEq

/-- The artifact filename of a variant. -/
def variantName (base fmt : String) : ImgVariant → String
  | .sized label density compressed => image_variant_name base label density fmt compressed
  | .fullSize compressed => full_size_name base fmt compressed

/-- Densities actually used by `process_image`: `[1, 2]` with retina, `[1]`
without (`src/press.py:221`); so a sized variant's density is 1 or 2. -/
def densOK : ImgVariant → Prop
  | .sized _ density _ => density = 1 ∨ density = 2
  | .fullSize _ => True

/-! ## Resize geometry (`src/press.py:237` and `:256`)

The source computes `int(img.height * (base_width * density / img.width))`
with float division; in exact arithmetic the truncation of this non-negative
value is the floor, i.e. Nat division. -/

/-- The output height of a resized image variant: truncated
`source_height * (width * density) / source_width`. -/
def new_height (srcWidth srcHeight width density : Nat) : Nat :=
  (srcHeight * (width * density)) / srcWidth

/-- The height the specification's formula prescribes — `round` instead of the
source's truncation (`height = round(source_height * (width*density) / source_width)`).
Kept separate from `new_height` to compare spec and source. -/
def spec_round_height (srcWidth srcHeight width density : Nat) : ℤ :=
  round ((srcHeight * (width * density) : ℚ) / srcWidth)

/-! ## In-memory bitmaps and the image producer -/

/-- An in-memory bitmap.  `resampleOps` records the chain of resample calls
that produced it from the decoded source (the decoded source itself has an
empty chain), so that "rendered from the original bitmap, not from an already
shrunk one" is observable. -/
structure Bitmap where
  width : Nat
  height : Nat
  mode : String
  resampleOps : List (Nat × Nat) := []
  deriving Repr, DecidableEq

/-- Model of `img.convert(mode)`: pixel-format conversion, no geometry change. -/
def Bitmap.convert (b : Bitmap) (m : String) : Bitmap :=
  { b with mode := m }

/-- Model of `img.resize((w, h), LANCZOS)`: one more resample step. -/
def Bitmap.resize (b : Bitmap) (w h : Nat) : Bitmap :=
  { width := w, height := h, mode := b.mode, resampleOps := b.resampleOps ++ [(w, h)] }

/-- The encode parameters of one `resized_img.save(...)` call: PNG requests
`optimize=True` and no quality, every other format a numeric quality
(`src/press.py:239-241` etc.). -/
structure SaveParams where
  quality : Option Nat
  optimize : Bool
  deriving Repr, DecidableEq

/-- Encode params: `{'optimize': True}` for PNG, `{'quality': q}` otherwise. -/
def saveParams (fmt : String) (q : Nat) : SaveParams :=
  if fmt = "png" then ⟨none, true⟩ else ⟨some q, false⟩

/-- One file written by the image producer: target filename, the bitmap
handed to `save`, and the encode parameters. -/
structure ImgWrite where
  name : String
  bmp : Bitmap
  params : SaveParams
  deriving Repr, DecidableEq

/-- Log events of the image producer (parameters of the `log_message` calls
in `process_image`; the exact message text is elided). -/
inductive ImgLog where
  | noOutputDir
  | selectedSizes (labels : List String)
  | startProcessing (fileName : String)
  | decodeError (fileName : String)
  | resizedCreated
  | createdFullSize (name : String)
  | creatingCompressed (quality : Nat)
  | compressedCreated
  | doneFile (fileName : String)
  | convertError (fileName : String)
  deriving Repr, DecidableEq

/-- Result of one `process_image` run: the files written (in write order) and
the info-level log events.  The function is total: every exception of the
source is caught inside `process_image` itself, so nothing propagates to the
scheduler. -/
structure ImgResult where
  written : List ImgWrite := []
  logs : List ImgLog := []
  deriving Repr, DecidableEq

/-- The double loop `for size_label, base_width in sizes … for density in
densities` (`src/press.py:235-241` for the standard tier, `:254-260` for the
compressed tier): resize the decoded bitmap to
`(base_width*density, new_height …)` and save under the variant name. -/
def sized_writes (base fmt : String) (sizes : List (String × Nat))
    (densities : List Nat) (img : Bitmap) (q : Nat) (compressed : Bool) :
    List ImgWrite :=
  sizes.flatMap (fun p => densities.map (fun d =>
    { name := image_variant_name base p.1 d fmt compressed
      bmp := img.resize (p.2 * d) (new_height img.width img.height p.2 d)
      params := saveParams fmt q }))

/-- One full-size save (`src/press.py:244-247` and `:261-264`): the decoded
bitmap itself, unresampled. -/
def full_write (base fmt : String) (img : Bitmap) (q : Nat) (compressed : Bool) :
    ImgWrite :=
  { name := full_size_name base fmt compressed, bmp := img, params := saveParams fmt q }

/-- The max-compression block (`src/press.py:253-264`): the resized set and/or
the full-size render again, at the max-compression quality, resampling from
the decoded bitmap `img` (the loop reads `img`, not a previous output), with
the `_compressed` name infix. -/
def comp_writes (base fmt : String) (sizes : List (String × Nat))
    (densities : List Nat) (img : Bitmap) (compQ : Nat) (includeFull : Bool) :
    List ImgWrite :=
  (if sizes ≠ [] then sized_writes base fmt sizes densities img compQ true else []) ++
  (if includeFull then [full_write base fmt img compQ true] else [])

/-- The merged size map of `process_image` (`src/press.py:211-217`): the
profile's preset sizes filtered to the selected labels, then updated with the
parsed custom sizes. -/
def planned_sizes (profile : List (String × Nat)) (settings : Settings) :
    List (String × Nat) :=
  dictUpdate (profile.filter (fun p => p.1 ∈ settings.sizes_to_process))
    (get_custom_sizes settings.custom_sizes)

/-- Model of `process_image` (`src/press.py:202-269`).  Inputs beyond the source
signature model the environment: `outputDirSet` is whether `OUTPUT_DIR` is
configured; `prepareFails` is whether `prepare_image_path` raises (a HEIC
input whose sips conversion exits non-zero — always `false` for non-HEIC
inputs; the temp-file bookkeeping of the conversion is elided); `decodeRes`
is the outcome of `Image.open` (`none` models `UnidentifiedImageError`);
`stdQ`/`compQ` are the configured tier qualities.  All exceptions are caught
inside (the `except UnidentifiedImageError` at line 229, the
`except subprocess.CalledProcessError` at 268 and the `except Exception` at
269), so the result is total and nothing escapes to the scheduler. -/
def process_image (fileName base : String) (profile : List (String × Nat))
    (settings : Settings) (outputDirSet : Bool) (prepareFails : Bool)
    (decodeRes : Option Bitmap) (stdQ compQ : Nat) : ImgResult :=
  if ¬outputDirSet then { logs := [.noOutputDir] }
  else
    let fmt := settings.image_format
    let sizes := planned_sizes profile settings
    let densities := if settings.include_retina then [1, 2] else [1]
    let includeFull := "full_size" ∈ settings.sizes_to_process
    let logs0 : List ImgLog :=
      [.selectedSizes (sizes.map (·.1)), .startProcessing fileName]
    if prepareFails then { logs := logs0 ++ [.convertError fileName] }
    else
      match decodeRes with
      | none => { logs := logs0 ++ [.decodeError fileName] }
      | some raw =>
        let img := raw.convert (if fmt = "png" then "RGBA" else "RGB")
        let stdPart := if sizes ≠ [] then sized_writes base fmt sizes densities img stdQ false else []
        let stdLogs : List ImgLog := if sizes ≠ [] then [.resizedCreated] else []
        let fullPart := if includeFull then [full_write base fmt img stdQ false] else []
        let fullLogs : List ImgLog :=
          if includeFull then [.createdFullSize (full_size_name base fmt false)] else []
        let compPart :=
          if settings.compression_mode = "max_compression" then
            comp_writes base fmt sizes densities img compQ includeFull
          else []
        let compLogs : List ImgLog :=
          if settings.compression_mode = "max_compression" then
            [.creatingCompressed compQ, .compressedCreated]
          else []
        { written := stdPart ++ fullPart ++ compPart
          logs := logs0 ++ stdLogs ++ fullLogs ++ compLogs ++ [.doneFile fileName] }

/-- Copy of `process_image` with the standard-tier rendering block
(`src/press.py:234-248`, lines 234-242 and 244-248) removed, all else
unchanged.  Modelled for comparison only: it expresses the counterfactual run
in which the standard-tier renders never happen, to show the max-compression
outputs are independent of them. -/
def process_image_noStd (fileName base : String) (profile : List (String × Nat))
    (settings : Settings) (outputDirSet : Bool) (prepareFails : Bool)
    (decodeRes : Option Bitmap) (stdQ compQ : Nat) : ImgResult :=
  if ¬outputDirSet then { logs := [.noOutputDir] }
  else
    let fmt := settings.image_format
    let sizes := planned_sizes profile settings
    let densities := if settings.include_retina then [1, 2] else [1]
    let includeFull := "full_size" ∈ settings.sizes_to_process
    let logs0 : List ImgLog :=
      [.selectedSizes (sizes.map (·.1)), .startProcessing fileName]
    if prepareFails then { logs := logs0 ++ [.convertError fileName] }
    else
      match decodeRes with
      | none => { logs := logs0 ++ [.decodeError fileName] }
      | some raw =>
        let img := raw.convert (if fmt = "png" then "RGBA" else "RGB")
        let compPart :=
          if settings.compression_mode = "max_compression" then
            comp_writes base fmt sizes densities img compQ includeFull
          else []
        let compLogs : List ImgLog :=
          if settings.compression_mode = "max_compression" then
            [.creatingCompressed compQ, .compressedCreated]
          else []
        { written := compPart
          logs := logs0 ++ compLogs ++ [.doneFile fileName] }

/-! ## Audio-only producer (`process_audio_only`, `src/press.py:177-186`) -/

/-- The dict `AUDIO_CODECS` (`src/press.py:50`). -/
def AUDIO_CODECS : List (String × String) :=
  [("mp3", "libmp3lame"), ("aac", "aac"), ("opus", "libopus")]

/-- Association-list lookup with a default (the key is always present at the
use sites below). -/
def lookupD (m : List (String × String)) (k dflt : String) : String :=
  (((m.find? (fun p => p.1 == k)).map (fun p => p.2)).getD dflt)

/-- The one transcode invocation of the audio-only producer: input path,
audio codec, `-q:a` quality tier, output filename inside the asset's output
folder. -/
structure AudioCmd where
  input : String
  codec : String
  quality : String
  outName : String
  deriving Repr, DecidableEq

/-- Log events of the audio-only producer. -/
inductive AudioLog where
  | startAudio (fileName : String)
  | cmdOk
  | cmdError
  | audioDone (fileName : String)
  | audioError (fileName : String)
  deriving Repr, DecidableEq

/-- Result of one `process_audio_only` run.  Total: the producer's
`except Exception` catches everything, so nothing escapes. -/
structure AudioResult where
  invoked : List AudioCmd := []
  written : List String := []
  logs : List AudioLog := []
  deriving Repr, DecidableEq

/-- Model of `process_audio_only` (`src/press.py:177-186`): one ffmpeg invocation to
`{base}.mp3` with codec `AUDIO_CODECS["mp3"]` and `-q:a 2`; `runOk` is the
success of that invocation (a failure raises out of `run_command` and is
caught by the producer's `except`, which logs). The `settings` argument is
accepted and never read, exactly as in the source. -/
def process_audio_only (fileName base : String) (settings : Settings)
    (runOk : Bool) : AudioResult :=
  let target_format := "mp3"
  let cmd : AudioCmd :=
    { input := fileName
      codec := lookupD AUDIO_CODECS target_format ""
      quality := "2"
      outName := base ++ "." ++ target_format }
  if runOk then
    { invoked := [cmd]
      written := [cmd.outName]
      logs := [.startAudio fileName, .cmdOk, .audioDone fileName] }
  else
    { invoked := [cmd]
      written := []
      logs := [.startAudio fileName, .cmdError, .audioError fileName] }

/-! ## Video producer (`process_video`, `src/press.py:271-328`)

Each external invocation is modelled by a command descriptor and a success
oracle `ρ`; `run_command` raising on failure is modelled by early exit of the
remaining straight-line code, and the producer's single outer
`try/except Exception` by the error branch at the end. -/

/-- One transcoder invocation of the video producer. -/
inductive VidCmd where
  | poster
  | sized (label : String) (height : Nat) (compressed : Bool)
  | fullsize (compressed : Bool)
  deriving Repr, DecidableEq

/-- The output filename each invocation writes (`src/press.py:295,304,308,318,322`). -/
def vidOutName (base fmt : String) : VidCmd → String
  | .poster => base ++ "_poster.webp"
  | .sized label _ c => base ++ "_" ++ label ++ (if c then "_compressed" else "") ++ "." ++ fmt
  | .fullsize c => base ++ "_full_size" ++ (if c then "_compressed" else "") ++ "." ++ fmt

/-- Log events of the video producer. -/
inductive VidLog where
  | noOutputDir
  | selectedSizes (labels : List String)
  | startVideo (fileName : String)
  | stdHeader
  | compHeader
  | cmdOk (c : VidCmd)
  | cmdError (c : VidCmd)
  | videoDone (fileName : String)
  | videoError (fileName : String)
  deriving Repr, DecidableEq

/-- Result of one `process_video` run: the invocations attempted (in order),
the outputs of the successful ones, the log events.  Total: the outer
`except Exception` catches everything. -/
structure VidResult where
  attempted : List VidCmd := []
  written : List String := []
  logs : List VidLog := []
  deriving Repr, DecidableEq

/-- One `run_command` call in the video path: record the attempt; on success
record the output file and the completion log, on failure record the error
log and signal the raise (`false`). -/
def runStep (ρ : VidCmd → Bool) (base fmt : String) (c : VidCmd)
    (s : VidResult) : VidResult × Bool :=
  let s := { s with attempted := s.attempted ++ [c] }
  if ρ c then
    ({ s with written := s.written ++ [vidOutName base fmt c],
               logs := s.logs ++ [.cmdOk c] }, true)
  else
    ({ s with logs := s.logs ++ [.cmdError c] }, false)

/-- A `for`-loop of `run_command` calls: stops at the first failure (the
raise leaves the loop). -/
def runSteps (ρ : VidCmd → Bool) (base fmt : String) :
    List VidCmd → VidResult → VidResult × Bool
  | [], s => (s, true)
  | c :: cs, s =>
      match runStep ρ base fmt c s with
      | (s', true) => runSteps ρ base fmt cs s'
      | (s', false) => (s', false)

/-- Sequencing under the single `try`: the continuation runs only if nothing
raised so far. -/
def andThen (r : VidResult × Bool) (k : VidResult → VidResult × Bool) :
    VidResult × Bool :=
  if r.2 then k r.1 else r

/-- The video size map (`src/press.py:280-284`): the profile's `heights_map`
filtered to the selected labels, updated with the custom sizes — the same
computation as the image path's size map. -/
def video_heights (profile : List (String × Nat)) (settings : Settings) :
    List (String × Nat) :=
  planned_sizes profile settings

/-- Every transcoder invocation the video path intends for an asset, in
source order: poster, standard renditions, standard full-size, then (under
max compression) compressed renditions and compressed full-size. -/
def planned_video_cmds (profile : List (String × Nat)) (settings : Settings) :
    List VidCmd :=
  let heights := video_heights profile settings
  let includeFull := "full_size" ∈ settings.sizes_to_process
  [VidCmd.poster] ++
  heights.map (fun p => VidCmd.sized p.1 p.2 false) ++
  (if includeFull then [VidCmd.fullsize false] else []) ++
  (if settings.compression_mode = "max_compression" then
    heights.map (fun p => VidCmd.sized p.1 p.2 true) ++
      (if includeFull then [VidCmd.fullsize true] else [])
  else [])

/-- The join of `process_video`'s `try/except`: a body that ran to the end
logs the completion line, a body that raised logs the asset-level error. -/
def finalize (fileName : String) (r : VidResult × Bool) : VidResult :=
  match r with
  | (s, true) => { s with logs := s.logs ++ [VidLog.videoDone fileName] }
  | (s, false) => { s with logs := s.logs ++ [VidLog.videoError fileName] }

/-- Model of `process_video` (`src/press.py:271-328`): the whole body sits in one
`try`; the poster render, the standard loop, the full-size render, and the
max-compression block run in sequence, each through `run_command` (which
raises on failure); the single `except Exception` at the end logs the error.
`ρ` gives the success of each invocation. -/
def process_video (fileName base : String) (profile : List (String × Nat))
    (settings : Settings) (outputDirSet : Bool) (ρ : VidCmd → Bool) : VidResult :=
  if ¬outputDirSet then { logs := [.noOutputDir] }
  else
    let fmt := settings.video_format
    let heights := video_heights profile settings
    let includeFull := "full_size" ∈ settings.sizes_to_process
    let s0 : VidResult :=
      { logs := [.selectedSizes (heights.map (·.1)), .startVideo fileName] }
    finalize fileName
      (andThen (runStep ρ base fmt .poster s0) (fun s =>
        let s := { s with logs := s.logs ++ [.stdHeader] }
        andThen (runSteps ρ base fmt (heights.map (fun p => .sized p.1 p.2 false)) s) (fun s =>
          andThen (if includeFull then runStep ρ base fmt (.fullsize false) s else (s, true)) (fun s =>
            if settings.compression_mode = "max_compression" then
              let s := { s with logs := s.logs ++ [.compHeader] }
              andThen (runSteps ρ base fmt (heights.map (fun p => .sized p.1 p.2 true)) s) (fun s =>
                if includeFull then runStep ρ base fmt (.fullsize true) s else (s, true))
            else (s, true)))))

/-- The prefix of a command list that actually gets attempted when the first
failure raises: everything before the first failing command, plus that
command itself. -/
def cutAtFailure (ρ : VidCmd → Bool) : List VidCmd → List VidCmd
  | [] => []
  | c :: cs => if ρ c then c :: cutAtFailure ρ cs else [c]

/-- The error line of a job, if it failed. -/
def jobErrorOf (j : String × JobState) : Option String :=
  match j.2 with
  | .failed m => some (jobErrorLine j.1 m)
  | _ => none

/-- The part of a variant filename between the base name and the `.{ext}`
suffix, as a character list. -/
def variantStem : ImgVariant → List Char
  | .sized label d c =>
      '_' :: (label.data ++ '@' :: ((toString d).data ++ 'x' ::
        (if c then ("_compressed" : String).data else [])))
  | .fullSize c =>
      ("_full_size" : String).data ++ (if c then ("_compressed" : String).data else [])

/-- Reversal of the `_compressed` infix. -/
def compRev : List Char := ['d','e','s','s','e','r','p','m','o','c','_']

/-- Reversal of the `_full_size` stem. -/
def fullRev : List Char := ['e','z','i','s','_','l','l','u','f','_']

/-- Decode the label part of a reversed sized stem: the remainder must be the
reversed label followed by the leading underscore. -/
def decodeLabel (rest : List Char) (d : Nat) (c : Bool) : Option ImgVariant :=
  if rest.reverse.head? = some '_' then
    some (.sized (String.mk rest.reverse.tail) d c)
  else none

/-- Decode a reversed stem with the compression flag already stripped. -/
def decodeStem2 (r : List Char) (c : Bool) : Option ImgVariant :=
  if r = fullRev then some (.fullSize c)
  else if r.take 3 = ['x', '1', '@'] then decodeLabel (r.drop 3) 1 c
  else if r.take 3 = ['x', '2', '@'] then decodeLabel (r.drop 3) 2 c
  else none

/-- Decoder for `variantStem`: strip an optional reversed `_compressed`
suffix, then recognise either the full-size stem or the
`_{label}@{density}x` shape from the back (the last `@`-group is unambiguous
because the density is a single digit and the stem ends in `x`). -/
def decodeStem (st : List Char) : Option ImgVariant :=
  let r0 := st.reverse
  if r0.take 11 = compRev then decodeStem2 (r0.drop 11) true
  else decodeStem2 r0 false

/-! ### Max-compression provenance (C8) -/

/-- The compressed block of one image job, spelled out over the job's inputs:
what `process_image` computes as its `compPart` when the mode is
`max_compression`. -/
def comp_part (base : String) (profile : List (String × Nat)) (settings : Settings)
    (raw : Bitmap) (compQ : Nat) : List ImgWrite :=
  comp_writes base settings.image_format (planned_sizes profile settings)
    (if settings.include_retina then [1, 2] else [1])
    (raw.convert (if settings.image_format = "png" then "RGBA" else "RGB")) compQ
    ("full_size" ∈ settings.sizes_to_process)

/-! ### Video failure propagation (C1) -/

/-- Sectioned execution of the video body: each section is a list of
invocations preceded by header log lines; a failure inside a section stops
everything (the raise leaves the whole `try`). -/
def chainRun (ρ : VidCmd → Bool) (b f : String) :
    List (List VidLog × List VidCmd) → VidResult → VidResult × Bool
  | [], s => (s, true)
  | (L, cs) :: rest, s =>
      match runSteps ρ b f cs { s with logs := s.logs ++ L } with
      | (s', true) => chainRun ρ b f rest s'
      | (s', false) => (s', false)

/-- The log lines a sectioned execution emits: headers of reached sections,
one line per attempted invocation, stopping after the section that fails. -/
def chainLogs (ρ : VidCmd → Bool) : List (List VidLog × List VidCmd) → List VidLog
  | [] => []
  | (L, cs) :: rest =>
      L ++ (cutAtFailure ρ cs).map (fun c => if ρ c then VidLog.cmdOk c else VidLog.cmdError c) ++
        (if cs.all ρ then chainLogs ρ rest else [])

/-- The sections of `process_video`'s body, in source order: poster, the
standard loop (with its header line), the optional full-size render, then
under max compression the compressed loop (with its header line) and the
optional compressed full-size render. -/
def video_sections (profile : List (String × Nat)) (settings : Settings) :
    List (List VidLog × List VidCmd) :=
  let heights := video_heights profile settings
  [([], [VidCmd.poster]),
   ([VidLog.stdHeader], heights.map (fun p => VidCmd.sized p.1 p.2 false)),
   ([], if "full_size" ∈ settings.sizes_to_process then [VidCmd.fullsize false] else [])] ++
  (if settings.compression_mode = "max_compression" then
    [([VidLog.compHeader], heights.map (fun p => VidCmd.sized p.1 p.2 true)),
     ([], if "full_size" ∈ settings.sizes_to_process then [VidCmd.fullsize true] else [])]
  else [])

/-- The header logs of `process_video` before any invocation. -/
def videoStartLogs (fileName : String) (profile : List (String × Nat))
    (settings : Settings) : List VidLog :=
  [VidLog.selectedSizes ((video_heights profile settings).map (·.1)),
   VidLog.startVideo fileName]

/-! ## Theorems -/

/-- Folding `log_message` over any call sequence appends to the polled log
exactly the info-level messages. -/
theorem statusSnapshot_foldl (calls : List (String × String)) (init : LogState) :
    statusSnapshot (calls.foldl (fun st c => log_message c.1 c.2 st) init) =
      init.plog ++ (calls.filter (fun c => c.2 == "info")).map (fun c => c.1) := by
  induction calls generalizing init with
  | nil => simp [statusSnapshot]
  | cons c cs ih =>
      simp only [List.foldl_cons, List.filter_cons]
      rw [ih]
      by_cases h : c.2 = "info"
      · simp [log_message, h, statusSnapshot]
      · by_cases h2 : c.2 = "debug" <;> simp [log_message, h, h2, statusSnapshot]

/-- C10: only messages logged at the `'info'` level ever reach the
process-wide `processing_log` returned by the `/status` snapshot; `'debug'`
messages (and any other level) never appear there, so the polled log is the
info-level lines only. -/
theorem polled_log_is_info_only (calls : List (String × String)) (init : LogState) :
    statusSnapshot (calls.foldl (fun st c => log_message c.1 c.2 st) init) =
      init.plog ++ (calls.filter (fun c => c.2 == "info")).map (fun c => c.1) :=
  statusSnapshot_foldl calls init

/-- The log-accumulating fold of `processing_status` is a `filterMap`. -/
theorem reapLogs_eq_filterMap (l : List (String × JobState)) (acc : List String) :
    l.foldl (fun acc j => match j.2 with
      | JobState.failed m => acc ++ [jobErrorLine j.1 m]
      | _ => acc) acc = acc ++ l.filterMap jobErrorOf := by
  induction l generalizing acc with
  | nil => simp
  | cons j rest ih =>
      match h : j.2 with
      | .running => simp [List.foldl_cons, h, ih, jobErrorOf]
      | .done => simp [List.foldl_cons, h, ih, jobErrorOf]
      | .failed m => simp [List.foldl_cons, h, ih, jobErrorOf]

/-- Restricting to the finished jobs first does not change the error lines:
running jobs contribute none. -/
theorem filterMap_jobError_filter (l : List (String × JobState)) :
    (l.filter (fun j => j.2 ≠ JobState.running)).filterMap jobErrorOf =
      l.filterMap jobErrorOf := by
  induction l with
  | nil => rfl
  | cons j rest ih =>
      simp only [ne_eq, decide_not] at ih ⊢
      match h : j.2 with
      | .running => simp [List.filter_cons, h, ih, jobErrorOf]
      | .done => simp [List.filter_cons, h, ih, jobErrorOf]
      | .failed m => simp [List.filter_cons, h, ih, jobErrorOf]

/-- C9: one poll of `processing_status` returns the in-flight count, reaps
every finished job (the returned dict keeps exactly the running ones, in
order), logs exactly one error line per job that completed with a captured
exception, and — because the reaped handles are discarded — a second poll on
the remaining dict logs nothing and reaps nothing. -/
theorem processing_status_reaps_once (jobs : List (String × JobState)) :
    (processing_status jobs).1 =
        (jobs.filter (fun j => j.2 = JobState.running)).length ∧
    (processing_status jobs).2.1 = jobs.filter (fun j => j.2 = JobState.running) ∧
    (processing_status jobs).2.2 = jobs.filterMap jobErrorOf ∧
    (processing_status ((processing_status jobs).2.1)).2.2 = [] ∧
    (processing_status ((processing_status jobs).2.1)).2.1 =
      (processing_status jobs).2.1 := by
  refine ⟨rfl, rfl, ?_, ?_, ?_⟩
  · show (jobs.filter _).foldl _ [] = _
    rw [reapLogs_eq_filterMap, filterMap_jobError_filter]
    simp
  · show ((jobs.filter _).filter _).foldl _ [] = _
    rw [reapLogs_eq_filterMap]
    have h : ((jobs.filter (fun j => j.2 = JobState.running)).filter
        (fun j => j.2 ≠ JobState.running)) = [] := by
      rw [List.filter_eq_nil_iff]
      intro a ha
      have := (List.mem_filter.mp ha).2
      simp at this ⊢
      exact this
    rw [h]
    simp [jobErrorOf]
  · show List.filter _ (List.filter _ jobs) = List.filter _ jobs
    rw [List.filter_eq_self]
    intro a ha
    exact (List.mem_filter.mp ha).2

/-- C7: the audio-only producer performs exactly one transcode invocation —
to MP3 via `libmp3lame` at quality tier `"2"`, targeting `{base}.mp3` — and
on success writes exactly that one file; the result is independent of every
user setting (sizes, custom sizes, retina, formats, compression). -/
theorem audio_only_single_fixed_invocation (fileName base : String)
    (s₁ s₂ : Settings) (ok : Bool) :
    process_audio_only fileName base s₁ ok = process_audio_only fileName base s₂ ok ∧
    (process_audio_only fileName base s₁ ok).invoked =
      [{ input := fileName, codec := "libmp3lame", quality := "2",
         outName := base ++ ".mp3" }] ∧
    (process_audio_only fileName base s₁ ok).written =
      (if ok then [base ++ ".mp3"] else []) := by
  have houtname : ("." ++ "mp3" : String) = ".mp3" := rfl
  cases ok <;>
    simp [process_audio_only, lookupD, AUDIO_CODECS, String.append_assoc, houtname]

/-- C3: when the image source cannot be decoded (`Image.open` raises
`UnidentifiedImageError`), `process_image` logs the decode error and aborts
the asset's job having written no variant file at all; the error is absorbed
inside the producer (the function returns a value, nothing reaches the
scheduler). -/
theorem image_decode_failure_writes_nothing (fileName base : String)
    (profile : List (String × Nat)) (settings : Settings) (stdQ compQ : Nat) :
    (process_image fileName base profile settings true false none stdQ compQ).written
        = [] ∧
    (process_image fileName base profile settings true false none stdQ compQ).logs =
      [ImgLog.selectedSizes ((planned_sizes profile settings).map (·.1)),
       ImgLog.startProcessing fileName,
       ImgLog.decodeError fileName] := by
  constructor <;> simp [process_image]

/-- The claimed height formula rounds; the source truncates.  At source
dimensions 1000×999 with target width 1, density 1 the source computes
`int(999 * (1/1000)) = 0` while the spec formula gives `round(0.999) = 1`. -/
theorem resize_height_not_round :
    (new_height 1000 999 1 1 : ℤ) ≠ spec_round_height 1000 999 1 1 := by
  have h1 : new_height 1000 999 1 1 = 0 := rfl
  have h2 : spec_round_height 1000 999 1 1 = 1 := by
    norm_num [spec_round_height, round_eq]
  rw [h1, h2]
  decide

/-- Membership in the sized-render loop: each written file corresponds to one
(label, width) of the size map and one density, resized from `img` to
`(width*density, new_height ...)`. -/
theorem mem_sized_writes {base fmt : String} {sizes : List (String × Nat)}
    {dens : List Nat} {img : Bitmap} {q : Nat} {comp : Bool} {e : ImgWrite} :
    e ∈ sized_writes base fmt sizes dens img q comp ↔
      ∃ l w d, (l, w) ∈ sizes ∧ d ∈ dens ∧
        e = { name := image_variant_name base l d fmt comp,
              bmp := img.resize (w * d) (new_height img.width img.height w d),
              params := saveParams fmt q } := by
  simp only [sized_writes, List.mem_flatMap, List.mem_map]
  constructor
  · rintro ⟨⟨l, w⟩, hp, d, hd, rfl⟩
    exact ⟨l, w, d, hp, hd, rfl⟩
  · rintro ⟨l, w, d, hp, hd, rfl⟩
    exact ⟨⟨l, w⟩, hp, d, hd, rfl⟩

/-- C2 (amended): each image variant render outputs width `width*density` and
height `⌊source_height * (width*density) / source_width⌋` — truncation, the
source's `int(...)`, not the rounding the claim stated: `new_height` is the
rational floor, every element of the sized-render loop saves a bitmap resized
to exactly those dimensions, and the claim's concrete example (1000×500
source, target width 200) still yields height 100. -/
theorem image_resize_dimensions (sw sh w d : Nat) :
    new_height sw sh w d = ⌊((sh * (w * d) : ℕ) : ℚ) / ((sw : ℕ) : ℚ)⌋₊ ∧
    new_height 1000 500 200 1 = 100 ∧
    (∀ (base fmt : String) (sizes : List (String × Nat)) (dens : List Nat)
        (img : Bitmap) (q : Nat) (comp : Bool) (e : ImgWrite),
      e ∈ sized_writes base fmt sizes dens img q comp ↔
        ∃ l w' d', (l, w') ∈ sizes ∧ d' ∈ dens ∧
          e = { name := image_variant_name base l d' fmt comp,
                bmp := img.resize (w' * d') (new_height img.width img.height w' d'),
                params := saveParams fmt q }) := by
  refine ⟨?_, rfl, ?_⟩
  · rw [Nat.floor_div_nat, Nat.floor_natCast]
    rfl
  · intro base fmt sizes dens img q comp e
    exact mem_sized_writes

/-- No extension is both a supported image extension and a supported
audio/video container extension. -/
theorem av_not_img (ext : String) (h : ext ∈ SUPPORTED_AV_FORMATS) :
    ext ∉ SUPPORTED_IMAGE_FORMATS := by
  fin_cases h <;> decide

/-- C6: a supported image extension routes to the image producer regardless
of the probe (no probing can change the result); a supported audio/video
extension routes to the video producer iff the probe succeeds and reports a
video stream, and any probe failure routes to the audio-only producer
instead of failing the job. -/
theorem classify_routes (ext : String) (probe : ProbeResult) :
    (ext ∈ SUPPORTED_IMAGE_FORMATS → classify ext probe = Kind.image) ∧
    (ext ∈ SUPPORTED_AV_FORMATS →
      (classify ext probe = Kind.video ↔
        ∃ out, probe = Except.ok out ∧ strContains "video".data out.data = true) ∧
      (classify ext probe = Kind.video ∨ classify ext probe = Kind.audioOnly) ∧
      (probe = Except.error () → classify ext probe = Kind.audioOnly)) := by
  constructor
  · intro h
    simp [classify, h]
  · intro h
    have hni : ext ∉ SUPPORTED_IMAGE_FORMATS := av_not_img ext h
    refine ⟨?_, ?_, ?_⟩
    · cases probe with
      | ok out =>
          by_cases hc : strContains "video".data out.data <;>
            simp [classify, hni, h, has_video_stream, hc]
      | error e =>
          simp [classify, hni, h, has_video_stream]
    · cases probe with
      | ok out =>
          by_cases hc : strContains "video".data out.data <;>
            simp [classify, hni, h, has_video_stream, hc]
      | error e =>
          simp [classify, hni, h, has_video_stream]
    · intro hp
      subst hp
      simp [classify, hni, h, has_video_stream]

/-- Witness for `classify_routes` at concrete inputs: a `.jpg` is an image
whatever the probe does, a `.mp4` whose probe reports a video stream is
video, and a `.mp4` whose probe raises is audio-only. -/
theorem classify_routes_witness :
    classify ".jpg" (Except.error ()) = Kind.image ∧
    classify ".mp4" (Except.ok "codec_type video") = Kind.video ∧
    classify ".mp4" (Except.error ()) = Kind.audioOnly :=
  ⟨(classify_routes ".jpg" (Except.error ())).1 (by decide),
   ((classify_routes ".mp4" (Except.ok "codec_type video")).2 (by decide)).1.mpr
     ⟨"codec_type video", rfl, by decide⟩,
   (((classify_routes ".mp4" (Except.error ())).2 (by decide)).2.2) rfl⟩

/-- The synthetic custom-size key determines the token. -/
theorem customKey_inj {t₁ t₂ : List Char} (h : customKey t₁ = customKey t₂) :
    t₁ = t₂ := by
  have hd := congrArg String.data h
  simp only [customKey, String.data_append] at hd
  have hd' : ("custom_".data ++ t₁) ++ "px".data =
      ("custom_".data ++ t₂) ++ "px".data := hd
  exact List.append_cancel_left (List.append_cancel_right hd')

/-- Unpacking membership in an upsert. -/
theorem mem_upsert_elim {m : List (String × Nat)} {k : String} {v : Nat}
    {e : String × Nat} (h : e ∈ upsert m k v) : e ∈ m ∨ e = (k, v) := by
  unfold upsert at h
  split at h
  · rcases List.mem_map.mp h with ⟨a, ha, rfl⟩
    by_cases hk : a.1 = k
    · right; simp [hk]
    · left; simpa [hk] using ha
  · rcases List.mem_append.mp h with h | h
    · exact Or.inl h
    · right; simpa using h

/-- The upserted pair is a member afterwards. -/
theorem mem_upsert_self (m : List (String × Nat)) (k : String) (v : Nat) :
    (k, v) ∈ upsert m k v := by
  unfold upsert
  split
  · next hany =>
      rcases List.any_eq_true.mp hany with ⟨a, ha, hk⟩
      simp only [decide_eq_true_eq] at hk
      exact List.mem_map.mpr ⟨a, ha, by simp [hk]⟩
  · exact List.mem_append.mpr (Or.inr (by simp))

/-- A member whose key differs survives an upsert. -/
theorem mem_upsert_of_ne {m : List (String × Nat)} {k : String} {v : Nat}
    {e : String × Nat} (he : e ∈ m) (hne : e.1 ≠ k) : e ∈ upsert m k v := by
  unfold upsert
  split
  · exact List.mem_map.mpr ⟨e, he, by simp [hne]⟩
  · exact List.mem_append.mpr (Or.inl he)

/-- A member equal to the upserted pair survives an upsert. -/
theorem mem_upsert_of_eq {m : List (String × Nat)} {k : String} {v : Nat}
    {e : String × Nat} (he : e ∈ m) (heq : e = (k, v)) : e ∈ upsert m k v := by
  subst heq
  unfold upsert
  split
  · exact List.mem_map.mpr ⟨(k, v), he, by simp⟩
  · exact List.mem_append.mpr (Or.inl he)

/-- Membership through the token fold of `get_custom_sizes`: starting from an
accumulator whose entries all come from digit tokens, an entry is in the fold
iff it was already there or some digit token of the list produces it. -/
theorem mem_token_fold (ts : List (List Char)) :
    ∀ (acc : List (String × Nat)),
      (∀ e ∈ acc, ∃ t, pyIsDigit t ∧ e = (customKey t, pyInt t)) →
      ∀ e : String × Nat,
        (e ∈ ts.foldl (fun acc t =>
            if pyIsDigit t then upsert acc (customKey t) (pyInt t) else acc) acc ↔
          e ∈ acc ∨ ∃ t ∈ ts, pyIsDigit t ∧ e = (customKey t, pyInt t)) := by
  induction ts with
  | nil => intro acc _ e; simp
  | cons t ts ih =>
      intro acc hacc e
      simp only [List.foldl_cons]
      by_cases hd : pyIsDigit t
      · rw [if_pos hd]
        have hacc' : ∀ e' ∈ upsert acc (customKey t) (pyInt t),
            ∃ t', pyIsDigit t' ∧ e' = (customKey t', pyInt t') := by
          intro e' he'
          rcases mem_upsert_elim he' with h | h
          · exact hacc e' h
          · exact ⟨t, hd, h⟩
        rw [ih _ hacc']
        constructor
        · rintro (h | ⟨t', ht', hdt', rfl⟩)
          · rcases mem_upsert_elim h with h | h
            · exact Or.inl h
            · exact Or.inr ⟨t, List.mem_cons_self t ts, hd, h⟩
          · exact Or.inr ⟨t', List.mem_cons_of_mem t ht', hdt', rfl⟩
        · rintro (h | ⟨t', ht', hdt', rfl⟩)
          · by_cases hk : e.1 = customKey t
            · rcases hacc e h with ⟨t'', hdt'', he''⟩
              have hkey : customKey t'' = customKey t := by
                rw [he''] at hk
                exact hk
              have ht2 : t'' = t := customKey_inj hkey
              rw [ht2] at he''
              exact Or.inl (mem_upsert_of_eq h he'')
            · exact Or.inl (mem_upsert_of_ne h hk)
          · rcases List.mem_cons.mp ht' with rfl | ht''
            · exact Or.inl (mem_upsert_self _ _ _)
            · exact Or.inr ⟨t', ht'', hdt', rfl⟩
      · rw [if_neg hd, ih _ hacc]
        constructor
        · rintro (h | ⟨t', ht', h1, h2⟩)
          · exact Or.inl h
          · exact Or.inr ⟨t', List.mem_cons_of_mem t ht', h1, h2⟩
        · rintro (h | ⟨t', ht', h1, h2⟩)
          · exact Or.inl h
          · rcases List.mem_cons.mp ht' with rfl | ht''
            · exact absurd h1 hd
            · exact Or.inr ⟨t', ht'', h1, h2⟩

/-- C5: custom-size parsing is total and token-wise — an entry is produced
exactly for each comma-separated token that is a non-negative (ASCII) integer
string, under the synthetic `custom_{token}px` label with the token's numeric
value; non-numeric tokens are dropped without error.  Concretely, merging the
selected preset `{"thumb": 100}` with custom sizes `"50,200"` yields exactly
three entries, and `"50,abc"` yields only the numeric entry. -/
theorem custom_sizes_parsing (s : String) (k : String) (v : Nat) :
    ((k, v) ∈ get_custom_sizes s ↔
      ∃ t ∈ customTokens s, pyIsDigit t ∧ k = customKey t ∧ v = pyInt t) ∧
    dictUpdate [("thumb", 100)] (get_custom_sizes "50,200") =
      [("thumb", 100), ("custom_50px", 50), ("custom_200px", 200)] ∧
    get_custom_sizes "50,abc" = [("custom_50px", 50)] := by
  refine ⟨?_, by decide, by decide⟩
  by_cases hs : s = ""
  · subst hs
    simp [get_custom_sizes, customTokens, splitComma, pyStrip, pyIsDigit]
  · rw [get_custom_sizes, if_pos hs]
    rw [mem_token_fold _ [] (by simp) _]
    simp only [List.not_mem_nil, false_or]
    constructor
    · rintro ⟨t, ht, hdt, heq⟩
      rw [Prod.mk.injEq] at heq
      exact ⟨t, ht, hdt, heq.1, heq.2⟩
    · rintro ⟨t, ht, hdt, hk, hv⟩
      exact ⟨t, ht, hdt, by rw [hk, hv]⟩

/-! ### Filename injectivity (C4) -/

/-- Character data of the literal `"_"`. -/
theorem data_underscore : ("_" : String).data = ['_'] := rfl

/-- Character data of the literal `"@"`. -/
theorem data_at : ("@" : String).data = ['@'] := rfl

/-- Character data of the literal `"x"`. -/
theorem data_x : ("x" : String).data = ['x'] := rfl

/-- Character data of the literal `"."`. -/
theorem data_dot : ("." : String).data = ['.'] := rfl

/-- Character data of the literal `"_compressed"`. -/
theorem data_compressed :
    ("_compressed" : String).data = ['_','c','o','m','p','r','e','s','s','e','d'] := rfl

/-- Character data of the literal `"_full_size"`. -/
theorem data_full_size :
    ("_full_size" : String).data = ['_','f','u','l','l','_','s','i','z','e'] := rfl

/-- Character data of the empty literal. -/
theorem data_empty : ("" : String).data = [] := rfl

/-- Rendering of density 1. -/
theorem data_toString_one : (toString (1 : Nat)).data = ['1'] := rfl

/-- Rendering of density 2. -/
theorem data_toString_two : (toString (2 : Nat)).data = ['2'] := rfl

/-- Rebuilding a string from its character data. -/
theorem mk_data (s : String) : String.mk s.data = s := rfl

/-- Every variant filename decomposes as base ++ stem ++ `.` ++ format. -/
theorem variantName_data (base fmt : String) (v : ImgVariant) :
    (variantName base fmt v).data = base.data ++ (variantStem v ++ ('.' :: fmt.data)) := by
  cases v with
  | sized l d c =>
      cases c <;>
        simp [variantName, image_variant_name, variantStem, String.data_append,
          data_underscore, data_at, data_x, data_dot, data_compressed, data_empty,
          List.append_assoc]
  | fullSize c =>
      cases c <;>
        simp [variantName, full_size_name, variantStem, String.data_append,
          data_dot, data_compressed, data_full_size, data_empty, List.append_assoc]

/-- Unequal literal heads. -/
theorem char_x_ne_d : ('x' = 'd') = False := by decide

/-- Unequal literal heads. -/
theorem char_x_ne_e : ('x' = 'e') = False := by decide

/-- Retraction: `decodeStem` inverts `variantStem` on the variants the
producer generates (density 1 or 2). -/
theorem decode_variantStem (v : ImgVariant) (hv : densOK v) :
    decodeStem (variantStem v) = some v := by
  cases v with
  | fullSize c => cases c <;> decide
  | sized l d c =>
      rcases hv with rfl | rfl <;> cases c
      · have h0 : (variantStem (ImgVariant.sized l 1 false)).reverse =
            'x' :: '1' :: '@' :: (l.data.reverse ++ ['_']) := by
          simp [variantStem, data_toString_one, List.reverse_append]
        simp only [decodeStem, h0]
        rw [if_neg (by simp [compRev, char_x_ne_d]), decodeStem2,
          if_neg (by simp [fullRev, char_x_ne_e])]
        simp [decodeLabel, List.reverse_append, mk_data]
      · have h0 : (variantStem (ImgVariant.sized l 1 true)).reverse =
            compRev ++ ('x' :: '1' :: '@' :: (l.data.reverse ++ ['_'])) := by
          simp [variantStem, data_toString_one, data_compressed, compRev,
            List.reverse_append, List.append_assoc]
        have htake : (compRev ++ ('x' :: '1' :: '@' :: (l.data.reverse ++ ['_']))).take 11
            = compRev := by
          rw [show (11 : Nat) = compRev.length from rfl, List.take_left]
        have hdrop : (compRev ++ ('x' :: '1' :: '@' :: (l.data.reverse ++ ['_']))).drop 11
            = 'x' :: '1' :: '@' :: (l.data.reverse ++ ['_']) := by
          rw [show (11 : Nat) = compRev.length from rfl, List.drop_left]
        simp only [decodeStem, h0]
        rw [if_pos htake, hdrop, decodeStem2, if_neg (by simp [fullRev, char_x_ne_e])]
        simp [decodeLabel, List.reverse_append, mk_data]
      · have h0 : (variantStem (ImgVariant.sized l 2 false)).reverse =
            'x' :: '2' :: '@' :: (l.data.reverse ++ ['_']) := by
          simp [variantStem, data_toString_two, List.reverse_append]
        simp only [decodeStem, h0]
        rw [if_neg (by simp [compRev, char_x_ne_d]), decodeStem2,
          if_neg (by simp [fullRev, char_x_ne_e])]
        simp [decodeLabel, List.reverse_append, mk_data]
      · have h0 : (variantStem (ImgVariant.sized l 2 true)).reverse =
            compRev ++ ('x' :: '2' :: '@' :: (l.data.reverse ++ ['_'])) := by
          simp [variantStem, data_toString_two, data_compressed, compRev,
            List.reverse_append, List.append_assoc]
        have htake : (compRev ++ ('x' :: '2' :: '@' :: (l.data.reverse ++ ['_']))).take 11
            = compRev := by
          rw [show (11 : Nat) = compRev.length from rfl, List.take_left]
        have hdrop : (compRev ++ ('x' :: '2' :: '@' :: (l.data.reverse ++ ['_']))).drop 11
            = 'x' :: '2' :: '@' :: (l.data.reverse ++ ['_']) := by
          rw [show (11 : Nat) = compRev.length from rfl, List.drop_left]
        simp only [decodeStem, h0]
        rw [if_pos htake, hdrop, decodeStem2, if_neg (by simp [fullRev, char_x_ne_e])]
        simp [decodeLabel, List.reverse_append, mk_data]

/-- Stems of producible variants are distinct. -/
theorem variantStem_inj {v₁ v₂ : ImgVariant} (h1 : densOK v₁) (h2 : densOK v₂)
    (he : variantStem v₁ = variantStem v₂) : v₁ = v₂ := by
  have hd := decode_variantStem v₁ h1
  rw [he, decode_variantStem v₂ h2] at hd
  exact (Option.some.inj hd).symm

/-- C4: within one asset and one target format, the artifact name is a
deterministic function of (label, density, compression suffix) and no two
distinct variants collide; and the names take exactly the documented shape —
`photo_thumb@2x.jpg` uncompressed, `photo_thumb@2x_compressed.jpg`
compressed, for base `"photo"`, label `"thumb"`, density 2, format `"jpg"`. -/
theorem variant_names_collision_free (base fmt : String) :
    (∀ v₁ v₂ : ImgVariant, densOK v₁ → densOK v₂ →
        variantName base fmt v₁ = variantName base fmt v₂ → v₁ = v₂) ∧
    image_variant_name "photo" "thumb" 2 "jpg" false = "photo_thumb@2x.jpg" ∧
    image_variant_name "photo" "thumb" 2 "jpg" true = "photo_thumb@2x_compressed.jpg" := by
  refine ⟨?_, rfl, rfl⟩
  intro v₁ v₂ h1 h2 he
  apply variantStem_inj h1 h2
  have hd := congrArg String.data he
  rw [variantName_data, variantName_data] at hd
  exact List.append_cancel_right (List.append_cancel_left hd)

/-- Witness for `variant_names_collision_free`: the injectivity applied at
density-2 variants, plus the concrete compressed name. -/
theorem variant_names_collision_free_witness :
    ImgVariant.sized "thumb" 2 false = ImgVariant.sized "thumb" 2 false ∧
    image_variant_name "photo" "thumb" 2 "jpg" true = "photo_thumb@2x_compressed.jpg" :=
  ⟨(variant_names_collision_free "photo" "jpg").1 _ _ (Or.inr rfl) (Or.inr rfl) rfl,
   (variant_names_collision_free "photo" "jpg").2.2⟩

/-- C8: under `max_compression`, the compressed image variants are resampled
from the original decoded bitmap — every compressed write's bitmap is the
original itself (full-size) or a single resample step away from it, never a
resample of an already-shrunk output — so the compressed writes are the same
with or without the standard-tier rendering (the `process_image_noStd`
counterfactual produces exactly them), and every compressed write carries the
`_compressed` infix name. -/
theorem max_compression_from_original (fileName base : String)
    (profile : List (String × Nat)) (settings : Settings) (stdQ compQ : Nat)
    (raw : Bitmap)
    (hmode : settings.compression_mode = "max_compression")
    (horig : raw.resampleOps = []) :
    (∃ pre,
      (process_image fileName base profile settings true false (some raw) stdQ compQ).written =
        pre ++ (process_image_noStd fileName base profile settings true false
          (some raw) stdQ compQ).written) ∧
    (process_image_noStd fileName base profile settings true false (some raw)
        stdQ compQ).written = comp_part base profile settings raw compQ ∧
    (∀ e ∈ comp_part base profile settings raw compQ,
      e.bmp.resampleOps = [] ∨ ∃ w h, e.bmp.resampleOps = [(w, h)]) ∧
    (∀ e ∈ comp_part base profile settings raw compQ,
      (∃ l d, e.name = image_variant_name base l d settings.image_format true) ∨
        e.name = full_size_name base settings.image_format true) := by
  refine ⟨?_, ?_, ?_, ?_⟩
  · refine ⟨(if planned_sizes profile settings ≠ [] then
        sized_writes base settings.image_format (planned_sizes profile settings)
          (if settings.include_retina then [1, 2] else [1])
          (raw.convert (if settings.image_format = "png" then "RGBA" else "RGB"))
          stdQ false
      else []) ++
      (if "full_size" ∈ settings.sizes_to_process then
        [full_write base settings.image_format
          (raw.convert (if settings.image_format = "png" then "RGBA" else "RGB")) stdQ false]
      else []), ?_⟩
    simp [process_image, process_image_noStd, hmode, List.append_assoc]
  · simp [process_image_noStd, hmode, comp_part]
  · intro e he
    rw [comp_part, comp_writes] at he
    rcases List.mem_append.mp he with h | h
    · split at h
      · rcases mem_sized_writes.mp h with ⟨l, w, d, _, _, rfl⟩
        right
        exact ⟨w * d,
          new_height (raw.convert (if settings.image_format = "png" then "RGBA" else "RGB")).width
            (raw.convert (if settings.image_format = "png" then "RGBA" else "RGB")).height w d,
          by simp [Bitmap.resize, Bitmap.convert, horig]⟩
      · simp at h
    · split at h
      · left
        rcases List.mem_singleton.mp h with rfl
        simp [full_write, Bitmap.convert, horig]
      · simp at h
  · intro e he
    rw [comp_part, comp_writes] at he
    rcases List.mem_append.mp he with h | h
    · split at h
      · rcases mem_sized_writes.mp h with ⟨l, w, d, _, _, rfl⟩
        exact Or.inl ⟨l, d, rfl⟩
      · simp at h
    · split at h
      · rcases List.mem_singleton.mp h with rfl
        exact Or.inr rfl
      · simp at h

/-- Witness for `max_compression_from_original`: a concrete max-compression
job over a 1000×500 source with one preset size. -/
theorem max_compression_from_original_witness :
    (∃ pre,
      (process_image "photo.jpg" "photo" [("thumb", 100)]
        { image_format := "webp", compression_mode := "max_compression",
          custom_sizes := "", sizes_to_process := ["thumb", "full_size"],
          include_retina := false } true false
        (some { width := 1000, height := 500, mode := "raw", resampleOps := [] })
        85 75).written =
        pre ++ (process_image_noStd "photo.jpg" "photo" [("thumb", 100)]
          { image_format := "webp", compression_mode := "max_compression",
            custom_sizes := "", sizes_to_process := ["thumb", "full_size"],
            include_retina := false } true false
          (some { width := 1000, height := 500, mode := "raw", resampleOps := [] })
          85 75).written) ∧
    (∀ e ∈ comp_part "photo" [("thumb", 100)]
        { image_format := "webp", compression_mode := "max_compression",
          custom_sizes := "", sizes_to_process := ["thumb", "full_size"],
          include_retina := false }
        { width := 1000, height := 500, mode := "raw", resampleOps := [] } 75,
      e.bmp.resampleOps = [] ∨ ∃ w h, e.bmp.resampleOps = [(w, h)]) := by
  have h := max_compression_from_original "photo.jpg" "photo" [("thumb", 100)]
    { image_format := "webp", compression_mode := "max_compression",
      custom_sizes := "", sizes_to_process := ["thumb", "full_size"],
      include_retina := false } 85 75
    { width := 1000, height := 500, mode := "raw", resampleOps := [] } rfl rfl
  exact ⟨h.1, h.2.2.1⟩

/-- A one-command loop is a single `run_command` call. -/
theorem runSteps_singleton (ρ : VidCmd → Bool) (b f : String) (c : VidCmd)
    (s : VidResult) : runSteps ρ b f [c] s = runStep ρ b f c s := by
  rcases h : runStep ρ b f c s with ⟨s', b'⟩
  cases b' <;> simp [runSteps, h]

/-- Closed form of a `run_command` loop: it attempts the prefix of the list
up to and including the first failure, writes the outputs of the successes,
logs one line per attempt, and succeeds iff every command succeeds. -/
theorem runSteps_eq (ρ : VidCmd → Bool) (b f : String) (cs : List VidCmd) :
    ∀ s : VidResult,
      runSteps ρ b f cs s =
        ({ attempted := s.attempted ++ cutAtFailure ρ cs,
           written := s.written ++ ((cutAtFailure ρ cs).filter ρ).map (vidOutName b f),
           logs := s.logs ++ (cutAtFailure ρ cs).map
             (fun c => if ρ c then VidLog.cmdOk c else VidLog.cmdError c) },
         cs.all ρ) := by
  induction cs with
  | nil => intro s; simp [runSteps, cutAtFailure]
  | cons c cs ih =>
      intro s
      by_cases hc : ρ c
      · simp only [runSteps, runStep, hc, if_true]
        rw [ih]
        simp [cutAtFailure, hc, List.append_assoc]
      · simp [runSteps, runStep, cutAtFailure, hc]

/-- When every command succeeds, the whole list is attempted. -/
theorem cutAtFailure_of_all {ρ : VidCmd → Bool} {cs : List VidCmd}
    (h : cs.all ρ = true) : cutAtFailure ρ cs = cs := by
  induction cs with
  | nil => rfl
  | cons c cs ih =>
      simp only [List.all_cons, Bool.and_eq_true] at h
      simp [cutAtFailure, h.1, ih h.2]

/-- Splitting the attempted prefix at a list concatenation. -/
theorem cutAtFailure_append (ρ : VidCmd → Bool) (xs ys : List VidCmd) :
    cutAtFailure ρ (xs ++ ys) =
      if xs.all ρ then xs ++ cutAtFailure ρ ys else cutAtFailure ρ xs := by
  induction xs with
  | nil => simp [cutAtFailure]
  | cons c cs ih =>
      by_cases hc : ρ c
      · by_cases h2 : cs.all ρ <;> simp [cutAtFailure, hc, h2, ih]
      · simp [cutAtFailure, hc]

/-- Closed form of a sectioned execution. -/
theorem chainRun_eq (ρ : VidCmd → Bool) (b f : String)
    (secs : List (List VidLog × List VidCmd)) :
    ∀ s : VidResult,
      chainRun ρ b f secs s =
        ({ attempted := s.attempted ++ cutAtFailure ρ ((secs.map Prod.snd).flatten),
           written := s.written ++
             ((cutAtFailure ρ ((secs.map Prod.snd).flatten)).filter ρ).map (vidOutName b f),
           logs := s.logs ++ chainLogs ρ secs },
         ((secs.map Prod.snd).flatten).all ρ) := by
  induction secs with
  | nil => intro s; simp [chainRun, chainLogs, cutAtFailure]
  | cons sec rest ih =>
      rcases sec with ⟨L, cs⟩
      intro s
      simp only [chainRun]
      rw [runSteps_eq]
      by_cases hall : cs.all ρ
      · simp only [hall]
        rw [ih]
        simp [chainLogs, hall, cutAtFailure_append, cutAtFailure_of_all hall,
          List.append_assoc, List.filter_append, List.map_append]
      · simp only [hall]
        simp [chainLogs, hall, cutAtFailure_append, List.append_assoc,
          List.filter_append, List.map_append]

/-- The invocations of the sections are exactly the planned invocation list. -/
theorem video_sections_join (profile : List (String × Nat)) (settings : Settings) :
    ((video_sections profile settings).map Prod.snd).flatten =
      planned_video_cmds profile settings := by
  by_cases hm : settings.compression_mode = "max_compression" <;>
    simp [video_sections, planned_video_cmds, hm, List.append_assoc]

/-- Unfolding one section of a sectioned execution. -/
theorem chainRun_cons (ρ : VidCmd → Bool) (b f : String) (L : List VidLog)
    (cs : List VidCmd) (rest : List (List VidLog × List VidCmd)) (s : VidResult) :
    chainRun ρ b f ((L, cs) :: rest) s =
      andThen (runSteps ρ b f cs { s with logs := s.logs ++ L }) (chainRun ρ b f rest) := by
  rcases h : runSteps ρ b f cs { s with logs := s.logs ++ L } with ⟨s', b'⟩
  cases b' <;> simp [chainRun, andThen, h]

/-- A sectioned execution with no sections does nothing. -/
theorem chainRun_nil (ρ : VidCmd → Bool) (b f : String) (s : VidResult) :
    chainRun ρ b f [] s = (s, true) := rfl

/-- Appending no log lines changes nothing. -/
theorem logs_append_nil (s : VidResult) :
    { s with logs := s.logs ++ ([] : List VidLog) } = s := by
  simp

/-- Sequencing with the trivial continuation. -/
theorem andThen_id (r : VidResult × Bool) : andThen r (fun s => (s, true)) = r := by
  rcases r with ⟨s, b⟩
  cases b <;> simp [andThen]

/-- An optional `run_command` call is a loop over an optional singleton. -/
theorem opt_step_eq (ρ : VidCmd → Bool) (b f : String) (cond : Prop)
    [Decidable cond] (c : VidCmd) (s : VidResult) :
    (if cond then runStep ρ b f c s else (s, true)) =
      runSteps ρ b f (if cond then [c] else []) s := by
  split
  · exact (runSteps_singleton ρ b f c s).symm
  · rfl

/-- The video producer is its sectioned execution followed by the final
success or error log of the `try/except`. -/
theorem process_video_eq_chain (fileName base : String)
    (profile : List (String × Nat)) (settings : Settings) (ρ : VidCmd → Bool) :
    process_video fileName base profile settings true ρ =
      finalize fileName
        (chainRun ρ base settings.video_format (video_sections profile settings)
          { attempted := [], written := [],
            logs := videoStartLogs fileName profile settings }) := by
  rw [process_video, if_neg (by simp)]
  rw [video_sections, videoStartLogs]
  simp only [List.cons_append, List.nil_append]
  rw [chainRun_cons, logs_append_nil, runSteps_singleton]
  apply congrArg
  apply congrArg
  funext s1
  rw [chainRun_cons]
  apply congrArg
  funext s2
  rw [chainRun_cons, logs_append_nil, opt_step_eq]
  apply congrArg
  funext s3
  by_cases hm : settings.compression_mode = "max_compression"
  · rw [if_pos hm, if_pos hm, chainRun_cons]
    apply congrArg
    funext s4
    rw [chainRun_cons, logs_append_nil, opt_step_eq,
      show (chainRun ρ base settings.video_format [] : VidResult → VidResult × Bool) =
        (fun s => (s, true)) from funext (chainRun_nil ρ base settings.video_format),
      andThen_id]
  · rw [if_neg hm, if_neg hm, chainRun_nil]

/-- A command that fails inside a section has its error line in the section
logs, provided it was attempted. -/
theorem cmdError_mem_chainLogs (ρ : VidCmd → Bool)
    (secs : List (List VidLog × List VidCmd)) (c : VidCmd) (hf : ρ c = false) :
    c ∈ cutAtFailure ρ ((secs.map Prod.snd).flatten) →
      VidLog.cmdError c ∈ chainLogs ρ secs := by
  induction secs with
  | nil => simp [cutAtFailure]
  | cons sec rest ih =>
      rcases sec with ⟨L, cs⟩
      simp only [List.map_cons, List.flatten_cons]
      rw [cutAtFailure_append]
      by_cases hall : cs.all ρ
      · rw [if_pos hall]
        intro hc
        rcases List.mem_append.mp hc with h | h
        · exact absurd (List.all_eq_true.mp hall c h) (by simp [hf])
        · have hmem := ih h
          simp [chainLogs, hall, hmem]
      · rw [if_neg hall]
        intro hc
        have hmem : VidLog.cmdError c ∈ (cutAtFailure ρ cs).map
            (fun c => if ρ c then VidLog.cmdOk c else VidLog.cmdError c) :=
          List.mem_map.mpr ⟨c, hc, by simp [hf]⟩
        simp [chainLogs, hall, hmem]

/-- C1 (amended): the video producer's invocations all run inside one `try`,
so the attempted invocations are exactly the planned list cut at the first
failing one (that one included) — a failure, the poster's included, aborts
every remaining invocation for the asset.  When every invocation succeeds
the whole plan runs and the completion line is logged; otherwise the failing
invocation's error line and the asset-level error line are logged and the
producer still returns normally (nothing reaches the scheduler). -/
theorem video_first_failure_aborts_rest (fileName base : String)
    (profile : List (String × Nat)) (settings : Settings) (ρ : VidCmd → Bool) :
    (process_video fileName base profile settings true ρ).attempted =
        cutAtFailure ρ (planned_video_cmds profile settings) ∧
    ((planned_video_cmds profile settings).all ρ = true →
      (process_video fileName base profile settings true ρ).attempted =
          planned_video_cmds profile settings ∧
      VidLog.videoDone fileName ∈
        (process_video fileName base profile settings true ρ).logs) ∧
    ((planned_video_cmds profile settings).all ρ = false →
      VidLog.videoError fileName ∈
        (process_video fileName base profile settings true ρ).logs) ∧
    (∀ c ∈ (process_video fileName base profile settings true ρ).attempted,
      ρ c = false →
        VidLog.cmdError c ∈
          (process_video fileName base profile settings true ρ).logs) := by
  have hJ := video_sections_join profile settings
  rw [process_video_eq_chain,
    chainRun_eq ρ base settings.video_format (video_sections profile settings)]
  by_cases hall : (((video_sections profile settings).map Prod.snd).flatten).all ρ
  · simp only [hall, finalize]
    rw [hJ] at hall ⊢
    refine ⟨by simp, fun _ => ⟨by simp [cutAtFailure_of_all hall], by simp⟩,
      fun hcon => absurd hall (by simp [hcon]), ?_⟩
    intro c hc hf
    simp only [List.nil_append] at hc
    rw [cutAtFailure_of_all hall] at hc
    exact absurd (List.all_eq_true.mp hall c hc) (by simp [hf])
  · have hall' : (((video_sections profile settings).map Prod.snd).flatten).all ρ = false :=
      Bool.eq_false_iff.mpr hall
    simp only [hall', finalize]
    rw [hJ] at hall' ⊢
    refine ⟨by simp, fun hcon => absurd hcon (by simp [hall']), fun _ => by simp, ?_⟩
    intro c hc hf
    simp only [List.nil_append] at hc
    rw [← hJ] at hc
    have hmem := cmdError_mem_chainLogs ρ (video_sections profile settings) c hf hc
    simp [hmem]

/-- Witness for `video_first_failure_aborts_rest`: one selected size, a
failing poster invocation. -/
theorem video_first_failure_aborts_rest_witness :
    (process_video "clip.mp4" "clip" [("md", 720)]
        { image_format := "webp", video_format := "mp4",
          compression_mode := "standard", custom_sizes := "",
          sizes_to_process := ["md"], include_retina := false } true
        (fun c => match c with | VidCmd.poster => false | _ => true)).attempted =
      cutAtFailure (fun c => match c with | VidCmd.poster => false | _ => true)
        (planned_video_cmds [("md", 720)]
          { image_format := "webp", video_format := "mp4",
            compression_mode := "standard", custom_sizes := "",
            sizes_to_process := ["md"], include_retina := false }) ∧
    VidLog.videoError "clip.mp4" ∈
      (process_video "clip.mp4" "clip" [("md", 720)]
        { image_format := "webp", video_format := "mp4",
          compression_mode := "standard", custom_sizes := "",
          sizes_to_process := ["md"], include_retina := false } true
        (fun c => match c with | VidCmd.poster => false | _ => true)).logs := by
  have h := video_first_failure_aborts_rest "clip.mp4" "clip" [("md", 720)]
    { image_format := "webp", video_format := "mp4",
      compression_mode := "standard", custom_sizes := "",
      sizes_to_process := ["md"], include_retina := false }
    (fun c => match c with | VidCmd.poster => false | _ => true)
  exact ⟨h.1, h.2.2.1 (by decide)⟩

/-- C1 counterexample: with one selected size and a failing poster
invocation, the rendition for label `"md"` is in the plan but is never
attempted — the poster failure aborts the remaining invocations for the
asset, refuting the claimed independence of invocations. -/
theorem video_poster_failure_counterexample :
    (process_video "clip.mp4" "clip" [("md", 720)]
        { image_format := "webp", video_format := "mp4",
          compression_mode := "standard", custom_sizes := "",
          sizes_to_process := ["md"], include_retina := false } true
        (fun c => match c with | VidCmd.poster => false | _ => true)).attempted ≠
      planned_video_cmds [("md", 720)]
        { image_format := "webp", video_format := "mp4",
          compression_mode := "standard", custom_sizes := "",
          sizes_to_process := ["md"], include_retina := false } ∧
    VidCmd.sized "md" 720 false ∈
      planned_video_cmds [("md", 720)]
        { image_format := "webp", video_format := "mp4",
          compression_mode := "standard", custom_sizes := "",
          sizes_to_process := ["md"], include_retina := false } ∧
    VidCmd.sized "md" 720 false ∉
      (process_video "clip.mp4" "clip" [("md", 720)]
        { image_format := "webp", video_format := "mp4",
          compression_mode := "standard", custom_sizes := "",
          sizes_to_process := ["md"], include_retina := false } true
        (fun c => match c with | VidCmd.poster => false | _ => true)).attempted := by
  refine ⟨?_, by decide, by decide⟩
  decide

end MediaPress